import Mathlib

/-!
Shallow embedding of src/main.py (piifilescanner).

Text is modelled as List Char.  Python str values such as the scan-status
strings become concrete character lists.  Word characters for the regex
word-boundary assertion are modelled over the ASCII range, which covers
every character the two patterns themselves can consume (digits, hyphen,
period, space).
-/

abbrev Text := List Char

/-- The regex character class [0-9]: code points 48 to 57. -/
def isDigitChar (c : Char) : Bool := 48 ≤ c.toNat && c.toNat ≤ 57

/-- Word characters for the \b assertion, modelled over ASCII:
digits, lowercase and uppercase letters and the underscore. -/
def isWordChar (c : Char) : Bool :=
  isDigitChar c || (97 ≤ c.toNat && c.toNat ≤ 122) ||
    (65 ≤ c.toNat && c.toNat ≤ 90) || c.toNat == 95

/-- Value of a digit character, as produced by Python int() on it. -/
def digitVal (c : Char) : Nat := c.toNat - 48

/-- digits_of from src/main.py line 24-25: the digit values of a string
(faithful on digit strings, on which Python int() succeeds). -/
def digits_of (s : Text) : List Nat := s.map digitVal

/-- Model of the two strided slices digits[-1::-2] and digits[-2::-2]
(src/main.py lines 27-28), applied to the reversed digit list: the first
component collects the elements at even offsets from the right end
(odd_digits), the second those at odd offsets (even_digits). -/
def altSplit : List Nat → List Nat × List Nat
  | [] => ([], [])
  | d :: rest => (d :: (altSplit rest).2, (altSplit rest).1)

/-- Decimal digit sum of a number below 100; models Python
sum(digits_of(str(n))) at src/main.py line 31, whose argument d*2 is at
most 18 on digit inputs. -/
def sumDigitsLt100 (n : Nat) : Nat := n / 10 + n % 10

/-- The checksum accumulated by src/main.py lines 26-31. -/
def luhnTotal (ds : List Nat) : Nat :=
  (altSplit ds.reverse).1.sum +
    ((altSplit ds.reverse).2.map (fun d => sumDigitsLt100 (d * 2))).sum

/-- luhn_checksum from src/main.py lines 22-32. -/
def luhn_checksum (sanitized_value : Text) : Bool :=
  luhnTotal (digits_of sanitized_value) % 10 == 0

/-- Spec-side doubled-digit contribution: double the digit and, if the
result exceeds 9, replace it by the sum of its two decimal digits. -/
def dblSum (d : Nat) : Nat := if 9 < d * 2 then d * 2 - 9 else d * 2

/-- Alternating map: f on the head, then g and f alternating down the
list. -/
def altMap (f g : Nat → Nat) : List Nat → List Nat
  | [] => []
  | d :: rest => f d :: altMap g f rest

/-- Spec-side Luhn formulation, following the words of the spec: walk the
digits starting from the rightmost one, keep the digits at even offsets
from the right end unchanged, double those at odd offsets (summing the
decimal digits of a doubled value when it exceeds 9), and require the
total to vanish modulo 10. -/
def luhnSpecWords (s : Text) : Bool :=
  (altMap (fun d => d) dblSum (digits_of s).reverse).sum % 10 == 0

def card4111v : Text :=
  ['4','1','1','1','1','1','1','1','1','1','1','1','1','1','1','1']

def card4111i : Text :=
  ['4','1','1','1','1','1','1','1','1','1','1','1','1','1','1','2']

theorem altMap_sum (f g : Nat → Nat) (l : List Nat) :
    (altMap f g l).sum = ((altSplit l).1.map f).sum + ((altSplit l).2.map g).sum := by
  induction l generalizing f g with
  | nil => simp [altMap, altSplit]
  | cons d rest ih =>
    simp [altMap, altSplit, ih g f]
    omega

theorem altSplit_mem (l : List Nat) :
    (∀ x ∈ (altSplit l).1, x ∈ l) ∧ (∀ x ∈ (altSplit l).2, x ∈ l) := by
  induction l with
  | nil => simp [altSplit]
  | cons d rest ih =>
    constructor
    · intro x hx
      simp only [altSplit, List.mem_cons] at hx
      rcases hx with h | h
      · simp [h]
      · simp [ih.2 x h]
    · intro x hx
      simp only [altSplit] at hx
      simp [ih.1 x hx]

theorem digitVal_le_nine {c : Char} (h : isDigitChar c = true) : digitVal c ≤ 9 := by
  simp only [isDigitChar, Bool.and_eq_true, decide_eq_true_eq] at h
  simp only [digitVal]
  omega

theorem dblSum_eq {d : Nat} (h : d ≤ 9) : sumDigitsLt100 (d * 2) = dblSum d := by
  unfold sumDigitsLt100 dblSum
  split <;> omega

/-- C2: luhn_checksum implements exactly the spec-stated algorithm (double
every second digit from the rightmost, sum the decimal digits of a doubled
value when it exceeds 9, add the undoubled digits, compare the total with 0
mod 10), and on the two concrete cards it returns valid for
4111111111111111 and invalid for 4111111111111112. -/
theorem claim2_luhn_spec :
    (∀ s : Text, (∀ c ∈ s, isDigitChar c = true) → luhn_checksum s = luhnSpecWords s) ∧
    luhn_checksum card4111v = true ∧ luhn_checksum card4111i = false := by
  refine ⟨?_, by decide, by decide⟩
  intro s hs
  unfold luhn_checksum luhnSpecWords luhnTotal
  rw [altMap_sum]
  have hd : ∀ x ∈ (digits_of s).reverse, x ≤ 9 := by
    intro x hx
    rw [List.mem_reverse] at hx
    rcases List.mem_map.mp hx with ⟨c, hc, rfl⟩
    exact digitVal_le_nine (hs c hc)
  have h1 : ((altSplit (digits_of s).reverse).1.map (fun d => d)) =
      (altSplit (digits_of s).reverse).1 := by simp
  have h2 : ((altSplit (digits_of s).reverse).2.map dblSum) =
      ((altSplit (digits_of s).reverse).2.map (fun d => sumDigitsLt100 (d * 2))) := by
    apply List.map_congr_left
    intro d hdm
    exact (dblSum_eq (hd d ((altSplit_mem _).2 d hdm))).symm
  rw [h1, h2]

/-- Witness for C2 at the concrete digit string 4111111111111111. -/
theorem claim2_witness :
    luhn_checksum card4111v = luhnSpecWords card4111v ∧
    luhn_checksum card4111v = true ∧ luhn_checksum card4111i = false :=
  ⟨claim2_luhn_spec.1 card4111v (by decide), claim2_luhn_spec.2.1, claim2_luhn_spec.2.2⟩

/-- C10: luhn_checksum is total with no length or network-class
precondition; on the empty string (n = 0) and on every all-zero digit
string the accumulated checksum is 0 and the function returns true. -/
theorem claim10_luhn_zero (n : Nat) :
    luhnTotal (digits_of (List.replicate n '0')) = 0 ∧
    luhn_checksum (List.replicate n '0') = true := by
  have hz : ∀ x ∈ (digits_of (List.replicate n '0')).reverse, x = 0 := by
    intro x hx
    rw [List.mem_reverse] at hx
    rcases List.mem_map.mp hx with ⟨c, hc, rfl⟩
    rw [List.eq_of_mem_replicate hc]
    rfl
  have h1 : (altSplit (digits_of (List.replicate n '0')).reverse).1.sum = 0 := by
    apply List.sum_eq_zero
    intro x hx
    exact hz x ((altSplit_mem _).1 x hx)
  have h2 : ((altSplit (digits_of (List.replicate n '0')).reverse).2.map
      (fun d => sumDigitsLt100 (d * 2))).sum = 0 := by
    apply List.sum_eq_zero
    intro x hx
    rcases List.mem_map.mp hx with ⟨d, hd, rfl⟩
    rw [hz d ((altSplit_mem _).2 d hd)]
    rfl
  have ht : luhnTotal (digits_of (List.replicate n '0')) = 0 := by
    unfold luhnTotal
    rw [h1, h2]
  refine ⟨ht, ?_⟩
  unfold luhn_checksum
  rw [ht]
  rfl

/-- Consume exactly n digit characters from the front of the list. -/
def digitsN : Nat → Text → Option (Text × Text)
  | 0, l => some ([], l)
  | _ + 1, [] => none
  | n + 1, c :: rest =>
    if isDigitChar c then (digitsN n rest).map (fun p => (c :: p.1, p.2)) else none

/-- The regex character class [- .] of the SSN pattern. -/
def isSSNSep (c : Char) : Bool := c == '-' || c == '.' || c == ' '

/-- Consume one separator from the class [- .]. -/
def sepSSN : Text → Option (Char × Text)
  | [] => none
  | c :: rest => if isSSNSep c then some (c, rest) else none

/-- The body of social_security_regex (src/main.py line 18) matched at the
head of the list: three digits, a separator, two digits, a separator, four
digits; returns the remainder after the match. -/
def ssnTail (l : Text) : Option Text :=
  (digitsN 3 l).bind fun p1 =>
  (sepSSN p1.2).bind fun q1 =>
  (digitsN 2 q1.2).bind fun p2 =>
  (sepSSN p2.2).bind fun q2 =>
  (digitsN 4 q2.2).map fun p3 => p3.2

/-- Leading word boundary before a digit: the previous character, when
there is one, is not a word character. -/
def boundaryB : Option Char → Bool
  | none => true
  | some c => !(isWordChar c)

/-- Trailing word boundary after a digit: the next character, when there is
one, is not a word character. -/
def endBoundary : Text → Bool
  | [] => true
  | c :: _ => !(isWordChar c)

/-- Does the SSN pattern match at the current position; prev is the
character immediately before this position, if any. -/
def ssnHere (prev : Option Char) (l : Text) : Bool :=
  boundaryB prev &&
    (match ssnTail l with
     | some rest => endBoundary rest
     | none => false)

/-- re.search of the SSN pattern: try each position from left to right. -/
def ssnSearchFrom (prev : Option Char) : Text → Bool
  | [] => false
  | c :: rest => ssnHere prev (c :: rest) || ssnSearchFrom (some c) rest

/-- The SSN detector (src/main.py line 83): whether the regex search over
the extracted text succeeds. -/
def ssnDetect (t : Text) : Bool := ssnSearchFrom none t

def allDigits (l : Text) : Prop := ∀ c ∈ l, isDigitChar c = true

instance (l : Text) : Decidable (allDigits l) := by
  unfold allDigits
  infer_instance

/-- Spec-side shape of a social-security token: three digits, a separator
from the class hyphen, period, space, two digits, a separator from the same
class, and four digits. -/
def ssnShape (mid : Text) : Prop :=
  ∃ d1 s1 d2 s2 d3, mid = d1 ++ s1 :: (d2 ++ s2 :: d3) ∧
    d1.length = 3 ∧ d2.length = 2 ∧ d3.length = 4 ∧
    allDigits d1 ∧ allDigits d2 ∧ allDigits d3 ∧
    isSSNSep s1 = true ∧ isSSNSep s2 = true

/-- The character immediately before a split point: the last character of
pre when pre is nonempty, otherwise the ambient previous character. -/
def lastOr (prev : Option Char) : Text → Option Char
  | [] => prev
  | c :: rest => lastOr (some c) rest

/-- No word character immediately before the token. -/
def beforeOk (o : Option Char) : Prop := ∀ x, o = some x → isWordChar x = false

/-- No word character immediately after the token. -/
def afterOk (post : Text) : Prop := ∀ x, post.head? = some x → isWordChar x = false

/-- Spec-side statement that the text contains a standalone SSN-shaped
token: a 3-2-4 digit group with class separators, with no word character
adjacent on either side (so in particular not embedded inside a longer
digit run). -/
def ssnStandalone (t : Text) : Prop :=
  ∃ pre mid post, t = pre ++ mid ++ post ∧ ssnShape mid ∧
    beforeOk (lastOr none pre) ∧ afterOk post

theorem digitsN_sound {n : Nat} {l ds r : Text} (h : digitsN n l = some (ds, r)) :
    l = ds ++ r ∧ ds.length = n ∧ allDigits ds := by
  induction n generalizing l ds with
  | zero =>
    simp only [digitsN, Option.some.injEq, Prod.mk.injEq] at h
    obtain ⟨h1, h2⟩ := h
    subst h1; subst h2
    simp [allDigits]
  | succ n ih =>
    cases l with
    | nil => simp [digitsN] at h
    | cons c rest =>
      simp only [digitsN] at h
      by_cases hc : isDigitChar c
      · rw [if_pos hc] at h
        rcases Option.map_eq_some'.mp h with ⟨⟨ds', r'⟩, hds, heq⟩
        obtain ⟨he1, he2⟩ := Prod.mk.injEq .. ▸ heq
        subst he1; subst he2
        obtain ⟨h1, h2, h3⟩ := ih hds
        refine ⟨by rw [h1]; rfl, by simp [h2], ?_⟩
        intro x hx
        rcases List.mem_cons.mp hx with rfl | hx2
        · exact hc
        · exact h3 x hx2
      · rw [if_neg hc] at h
        exact absurd h (by simp)

theorem digitsN_complete {ds : Text} (hd : allDigits ds) (r : Text) :
    digitsN ds.length (ds ++ r) = some (ds, r) := by
  induction ds with
  | nil => rfl
  | cons c ds ih =>
    have hc : isDigitChar c = true := hd c (by simp)
    have hd' : allDigits ds := fun x hx => hd x (by simp [hx])
    show digitsN (ds.length + 1) (c :: (ds ++ r)) = some (c :: ds, r)
    simp only [digitsN, hc, if_true, ih hd', Option.map_some']

theorem sepSSN_sound {l : Text} {c : Char} {r : Text} (h : sepSSN l = some (c, r)) :
    l = c :: r ∧ isSSNSep c = true := by
  cases l with
  | nil => simp [sepSSN] at h
  | cons c0 rest =>
    simp only [sepSSN] at h
    by_cases hc : isSSNSep c0
    · rw [if_pos hc] at h
      simp only [Option.some.injEq, Prod.mk.injEq] at h
      obtain ⟨h1, h2⟩ := h
      subst h1; subst h2
      exact ⟨rfl, hc⟩
    · rw [if_neg hc] at h
      exact absurd h (by simp)

theorem sepSSN_complete {c : Char} (hc : isSSNSep c = true) (r : Text) :
    sepSSN (c :: r) = some (c, r) := by
  simp [sepSSN, hc]

theorem ssnTail_sound {l rest : Text} (h : ssnTail l = some rest) :
    ∃ mid, l = mid ++ rest ∧ ssnShape mid := by
  unfold ssnTail at h
  rcases Option.bind_eq_some.mp h with ⟨⟨d1, l1⟩, h1, h⟩
  rcases Option.bind_eq_some.mp h with ⟨⟨s1, l2⟩, h2, h⟩
  rcases Option.bind_eq_some.mp h with ⟨⟨d2, l3⟩, h3, h⟩
  rcases Option.bind_eq_some.mp h with ⟨⟨s2, l4⟩, h4, h⟩
  rcases Option.map_eq_some'.mp h with ⟨⟨d3, l5⟩, h5, h6⟩
  obtain ⟨e1, e2, e3⟩ := digitsN_sound h1
  obtain ⟨f1, f2⟩ := sepSSN_sound h2
  obtain ⟨g1, g2, g3⟩ := digitsN_sound h3
  obtain ⟨i1, i2⟩ := sepSSN_sound h4
  obtain ⟨j1, j2, j3⟩ := digitsN_sound h5
  dsimp only at f1 g1 i1 j1 h6
  subst h6
  refine ⟨d1 ++ s1 :: (d2 ++ s2 :: d3), ?_, d1, s1, d2, s2, d3, rfl,
    e2, g2, j2, e3, g3, j3, f2, i2⟩
  rw [e1, f1, g1, i1, j1]
  simp

theorem ssnTail_complete {mid : Text} (h : ssnShape mid) (rest : Text) :
    ssnTail (mid ++ rest) = some rest := by
  rcases h with ⟨d1, s1, d2, s2, d3, rfl, h1, h2, h3, hd1, hd2, hd3, hs1, hs2⟩
  have e1 : (d1 ++ s1 :: (d2 ++ s2 :: d3)) ++ rest =
      d1 ++ (s1 :: (d2 ++ (s2 :: (d3 ++ rest)))) := by simp
  rw [e1]
  have q1 := digitsN_complete hd1 (s1 :: (d2 ++ (s2 :: (d3 ++ rest))))
  rw [h1] at q1
  have q2 := sepSSN_complete hs1 (d2 ++ (s2 :: (d3 ++ rest)))
  have q3 := digitsN_complete hd2 (s2 :: (d3 ++ rest))
  rw [h2] at q3
  have q4 := sepSSN_complete hs2 (d3 ++ rest)
  have q5 := digitsN_complete hd3 rest
  rw [h3] at q5
  unfold ssnTail
  rw [q1]
  simp only [Option.some_bind]
  rw [q2]
  simp only [Option.some_bind]
  rw [q3]
  simp only [Option.some_bind]
  rw [q4]
  simp only [Option.some_bind]
  rw [q5]
  simp

theorem boundaryB_iff (o : Option Char) : boundaryB o = true ↔ beforeOk o := by
  cases o <;> simp [boundaryB, beforeOk]

theorem endBoundary_iff (l : Text) : endBoundary l = true ↔ afterOk l := by
  cases l <;> simp [endBoundary, afterOk]

theorem ssnHere_iff (prev : Option Char) (l : Text) :
    ssnHere prev l = true ↔
      ∃ mid post, l = mid ++ post ∧ ssnShape mid ∧ beforeOk prev ∧ afterOk post := by
  constructor
  · intro h
    unfold ssnHere at h
    rw [Bool.and_eq_true] at h
    obtain ⟨hb, hm⟩ := h
    cases hst : ssnTail l with
    | none => rw [hst] at hm; exact absurd hm (by simp)
    | some rest =>
      rw [hst] at hm
      obtain ⟨mid, rfl, hshape⟩ := ssnTail_sound hst
      exact ⟨mid, rest, rfl, hshape, (boundaryB_iff prev).mp hb,
        (endBoundary_iff rest).mp hm⟩
  · rintro ⟨mid, post, rfl, hshape, hb, ha⟩
    unfold ssnHere
    rw [Bool.and_eq_true]
    refine ⟨(boundaryB_iff prev).mpr hb, ?_⟩
    rw [ssnTail_complete hshape post]
    exact (endBoundary_iff post).mpr ha

theorem ssnSearch_iff (prev : Option Char) (t : Text) :
    ssnSearchFrom prev t = true ↔
      ∃ pre mid post, t = pre ++ mid ++ post ∧ ssnShape mid ∧
        beforeOk (lastOr prev pre) ∧ afterOk post := by
  induction t generalizing prev with
  | nil =>
    simp only [ssnSearchFrom, Bool.false_eq_true, false_iff]
    rintro ⟨pre, mid, post, heq, hshape, _, _⟩
    rcases hshape with ⟨d1, s1, d2, s2, d3, rfl, h1, _⟩
    have := congrArg List.length heq
    simp [List.length_append] at this
    omega
  | cons c rest ih =>
    simp only [ssnSearchFrom, Bool.or_eq_true]
    rw [ssnHere_iff, ih (some c)]
    constructor
    · rintro (⟨mid, post, heq, hshape, hb, ha⟩ | ⟨pre, mid, post, heq, hshape, hb, ha⟩)
      · exact ⟨[], mid, post, by simp [heq], hshape, hb, ha⟩
      · exact ⟨c :: pre, mid, post, by simp [heq], hshape, hb, ha⟩
    · rintro ⟨pre, mid, post, heq, hshape, hb, ha⟩
      cases pre with
      | nil =>
        left
        exact ⟨mid, post, by simpa using heq, hshape, hb, ha⟩
      | cons c0 pre' =>
        right
        rw [List.cons_append, List.cons_append] at heq
        injection heq with hc hrest
        subst hc
        exact ⟨pre', mid, post, by simpa using hrest, hshape, hb, ha⟩

/-- C3: the SSN detector reports found iff the text contains a standalone
3-2-4 digit group with separators from the class hyphen, period, space,
delimited by word boundaries on both sides (so in particular not embedded
inside a longer digit run); for texts with no such pattern it reports
not-found. -/
theorem claim3_ssn_detector (t : Text) :
    ssnDetect t = true ↔ ssnStandalone t := by
  unfold ssnDetect ssnStandalone
  exact ssnSearch_iff none t

/-- The separator class [- ] of the credit-card pattern. -/
def isCCSep (c : Char) : Bool := c == '-' || c == ' '

/-- Greedy alternatives for the optional separator [- ]? : consume the
separator when present, then fall back to consuming nothing. -/
def ccSepAlts : Text → List (Text × Text)
  | [] => [([], [])]
  | c :: rest => if isCCSep c then [([c], rest), ([], c :: rest)] else [([], c :: rest)]

/-- Greedy alternatives for a group matched by d-escape with count 3 to 4:
four digits first, then three. -/
def ccAlts34 (l : Text) : List (Text × Text) :=
  (digitsN 4 l).toList ++ (digitsN 3 l).toList

/-- Greedy alternatives for the final group with count 3 to 5: five digits
first, then four, then three. -/
def ccAlts35 (l : Text) : List (Text × Text) :=
  (digitsN 5 l).toList ++ (digitsN 4 l).toList ++ (digitsN 3 l).toList

/-- The leading alternation of weak_credit_card_regex (src/main.py line
20): a four-digit group starting with 4, 6, 1 or 3, or starting with 5
followed by a digit from 0 to 5 (code points 48 to 53).  The five regex
branches are mutually exclusive on their first character, so folding them
into two cases preserves the alternation semantics. -/
def ccGroup1 : Text → Option (Text × Text)
  | [] => none
  | c :: rest =>
    if c == '4' || c == '6' || c == '1' || c == '3' then
      (digitsN 3 rest).map fun p => (c :: p.1, p.2)
    else if c == '5' then
      match rest with
      | [] => none
      | d :: rest2 =>
        if 48 ≤ d.toNat && d.toNat ≤ 53 then
          (digitsN 2 rest2).map fun p => (c :: d :: p.1, p.2)
        else none
    else none

/-- All ways to match the tail of the pattern (optional separator, 3-4
digits, optional separator, 3-4 digits, optional separator, 3-5 digits),
listed in the backtracking order of the regex engine: greedy alternatives
first, later choice points varying fastest. -/
def ccTails (r1 : Text) : List (Text × Text) :=
  (ccSepAlts r1).flatMap fun q1 =>
  (ccAlts34 q1.2).flatMap fun p2 =>
  (ccSepAlts p2.2).flatMap fun q2 =>
  (ccAlts34 q2.2).flatMap fun p3 =>
  (ccSepAlts p3.2).flatMap fun q3 =>
  (ccAlts35 q3.2).map fun p4 =>
    (q1.1 ++ p2.1 ++ q2.1 ++ p3.1 ++ q3.1 ++ p4.1, p4.2)

/-- The full credit-card pattern matched at the current position: the
first tail alternative whose trailing word boundary holds gives the
matched substring (match[0] in Python). -/
def ccHere (prev : Option Char) (l : Text) : Option Text :=
  if boundaryB prev then
    match ccGroup1 l with
    | none => none
    | some p1 =>
      (((ccTails p1.2).filter fun pr => endBoundary pr.2).head?).map fun pr => p1.1 ++ pr.1
  else none

/-- re.search of weak_credit_card_regex: the leftmost position where the
pattern matches, returning the matched substring. -/
def ccSearchFrom (prev : Option Char) : Text → Option Text
  | [] => none
  | c :: rest =>
    match ccHere prev (c :: rest) with
    | some m => some m
    | none => ccSearchFrom (some c) rest

/-- Separator stripping of src/main.py lines 88-91: remove hyphens, then
remove spaces. -/
def stripSeps (m : Text) : Text :=
  (m.filter fun c => !(c == '-')).filter fun c => !(c == ' ')

/-- The credit-card detector, src/main.py lines 86-94: search for the weak
pattern and, when a match exists, strip separators from that first match
and validate it with the Luhn checksum. -/
def ccDetect (t : Text) : Bool :=
  match ccSearchFrom none t with
  | some m => luhn_checksum (stripSeps m)
  | none => false

/-- An optional separator chunk of the credit-card pattern: empty, a
hyphen, or a space. -/
def sepOpt (s : Text) : Prop := s = [] ∨ s = ['-'] ∨ s = [' ']

/-- The weak network classes of the leading group as the regex has them:
first digit 4, 6, 1 or 3, or 5 followed by a digit from 0 to 5. -/
def ccLeadClass (g : Text) : Prop :=
  ∃ c rest, g = c :: rest ∧
    (c = '4' ∨ c = '6' ∨ c = '1' ∨ c = '3' ∨
      (c = '5' ∧ ∃ d rest2, rest = d :: rest2 ∧ 48 ≤ d.toNat ∧ d.toNat ≤ 53))

/-- Spec-side shape of a credit-card candidate: a four-digit group in a
weak network class, then three digit groups of lengths 3-4, 3-4 and 3-5,
each preceded by an optional single hyphen or space. -/
def ccShape (mid : Text) : Prop :=
  ∃ g1 s1 g2 s2 g3 s3 g4,
    mid = g1 ++ s1 ++ g2 ++ s2 ++ g3 ++ s3 ++ g4 ∧
    g1.length = 4 ∧ allDigits g1 ∧ ccLeadClass g1 ∧
    sepOpt s1 ∧ (g2.length = 3 ∨ g2.length = 4) ∧ allDigits g2 ∧
    sepOpt s2 ∧ (g3.length = 3 ∨ g3.length = 4) ∧ allDigits g3 ∧
    sepOpt s3 ∧ 3 ≤ g4.length ∧ g4.length ≤ 5 ∧ allDigits g4

/-- Spec-side: mid occurs in t as a word-bounded candidate of the weak
credit-card pattern. -/
def ccCandidate (t mid : Text) : Prop :=
  ∃ pre post, t = pre ++ mid ++ post ∧ ccShape mid ∧
    beforeOk (lastOr none pre) ∧ afterOk post

theorem beforeOk_none : beforeOk none := fun _ hx => Option.noConfusion hx

theorem beforeOk_some {c : Char} (h : isWordChar c = false) : beforeOk (some c) := by
  intro x hx
  injection hx with h2
  subst h2
  exact h

theorem afterOk_nil : afterOk [] := fun _ hx => Option.noConfusion hx

theorem afterOk_cons {c : Char} {post : Text} (h : isWordChar c = false) :
    afterOk (c :: post) := by
  intro x hx
  injection hx with h2
  subst h2
  exact h

theorem ccSepAlts_sound {l s r : Text} (h : (s, r) ∈ ccSepAlts l) :
    l = s ++ r ∧ sepOpt s := by
  cases l with
  | nil =>
    simp only [ccSepAlts, List.mem_singleton, Prod.mk.injEq] at h
    obtain ⟨h1, h2⟩ := h
    subst h1; subst h2
    exact ⟨rfl, Or.inl rfl⟩
  | cons c rest =>
    simp only [ccSepAlts] at h
    by_cases hc : isCCSep c
    · rw [if_pos hc] at h
      simp only [List.mem_cons, List.mem_singleton, Prod.mk.injEq,
        List.not_mem_nil, or_false] at h
      have hcc : c = '-' ∨ c = ' ' := by
        simp only [isCCSep, Bool.or_eq_true, beq_iff_eq] at hc
        exact hc
      rcases h with ⟨h1, h2⟩ | ⟨h1, h2⟩
      · subst h1; subst h2
        refine ⟨rfl, ?_⟩
        rcases hcc with rfl | rfl
        · exact Or.inr (Or.inl rfl)
        · exact Or.inr (Or.inr rfl)
      · subst h1; subst h2
        exact ⟨rfl, Or.inl rfl⟩
    · rw [if_neg hc] at h
      simp only [List.mem_singleton, Prod.mk.injEq] at h
      obtain ⟨h1, h2⟩ := h
      subst h1; subst h2
      exact ⟨rfl, Or.inl rfl⟩

theorem ccAlts34_sound {l g r : Text} (h : (g, r) ∈ ccAlts34 l) :
    l = g ++ r ∧ (g.length = 3 ∨ g.length = 4) ∧ allDigits g := by
  simp only [ccAlts34, List.mem_append, Option.mem_toList, Option.mem_def] at h
  rcases h with h | h
  · obtain ⟨e1, e2, e3⟩ := digitsN_sound h
    exact ⟨e1, Or.inr e2, e3⟩
  · obtain ⟨e1, e2, e3⟩ := digitsN_sound h
    exact ⟨e1, Or.inl e2, e3⟩

theorem ccAlts35_sound {l g r : Text} (h : (g, r) ∈ ccAlts35 l) :
    l = g ++ r ∧ 3 ≤ g.length ∧ g.length ≤ 5 ∧ allDigits g := by
  simp only [ccAlts35, List.mem_append, Option.mem_toList, Option.mem_def] at h
  rcases h with (h | h) | h
  · obtain ⟨e1, e2, e3⟩ := digitsN_sound h
    exact ⟨e1, by omega, by omega, e3⟩
  · obtain ⟨e1, e2, e3⟩ := digitsN_sound h
    exact ⟨e1, by omega, by omega, e3⟩
  · obtain ⟨e1, e2, e3⟩ := digitsN_sound h
    exact ⟨e1, by omega, by omega, e3⟩

theorem ccGroup1_sound {l g r : Text} (h : ccGroup1 l = some (g, r)) :
    l = g ++ r ∧ g.length = 4 ∧ allDigits g ∧ ccLeadClass g := by
  cases l with
  | nil => simp [ccGroup1] at h
  | cons c rest =>
    simp only [ccGroup1] at h
    by_cases h4 : (c == '4' || c == '6' || c == '1' || c == '3') = true
    · rw [if_pos h4] at h
      rcases Option.map_eq_some'.mp h with ⟨⟨ds, r2⟩, hds, heq⟩
      dsimp only at heq
      obtain ⟨he1, he2⟩ := Prod.mk.injEq .. ▸ heq
      subst he1; subst he2
      obtain ⟨e1, e2, e3⟩ := digitsN_sound hds
      have hc4 : c = '4' ∨ c = '6' ∨ c = '1' ∨ c = '3' := by
        simp only [Bool.or_eq_true, beq_iff_eq] at h4
        tauto
      have hcd : isDigitChar c = true := by
        rcases hc4 with rfl | rfl | rfl | rfl <;> decide
      refine ⟨by rw [e1]; rfl, by simp [e2], ?_, ?_⟩
      · intro x hx
        rcases List.mem_cons.mp hx with rfl | hx2
        · exact hcd
        · exact e3 x hx2
      · exact ⟨c, ds, rfl, by tauto⟩
    · rw [if_neg h4] at h
      by_cases h5 : (c == '5') = true
      · rw [if_pos h5] at h
        have hc5 : c = '5' := by simpa [beq_iff_eq] using h5
        cases rest with
        | nil => simp at h
        | cons d rest2 =>
          dsimp only at h
          by_cases hd05 : (48 ≤ d.toNat && d.toNat ≤ 53) = true
          · rw [if_pos hd05] at h
            rcases Option.map_eq_some'.mp h with ⟨⟨ds, r2⟩, hds, heq⟩
            dsimp only at heq
            obtain ⟨he1, he2⟩ := Prod.mk.injEq .. ▸ heq
            subst he1; subst he2
            obtain ⟨e1, e2, e3⟩ := digitsN_sound hds
            have hdb : 48 ≤ d.toNat ∧ d.toNat ≤ 53 := by
              simpa [Bool.and_eq_true, decide_eq_true_eq] using hd05
            have hdd : isDigitChar d = true := by
              simp only [isDigitChar, Bool.and_eq_true, decide_eq_true_eq]
              omega
            refine ⟨by rw [e1]; rfl, by simp [e2], ?_, ?_⟩
            · intro x hx
              rcases List.mem_cons.mp hx with rfl | hx2
              · subst hc5; decide
              · rcases List.mem_cons.mp hx2 with rfl | hx3
                · exact hdd
                · exact e3 x hx3
            · exact ⟨c, d :: ds, rfl, Or.inr (Or.inr (Or.inr (Or.inr
                ⟨hc5, d, ds, rfl, hdb.1, hdb.2⟩)))⟩
          · rw [if_neg hd05] at h
            simp at h
      · rw [if_neg h5] at h
        simp at h

theorem ccTails_sound {r1 tail rest : Text} (h : (tail, rest) ∈ ccTails r1) :
    r1 = tail ++ rest ∧
    ∃ s1 g2 s2 g3 s3 g4, tail = s1 ++ g2 ++ s2 ++ g3 ++ s3 ++ g4 ∧
      sepOpt s1 ∧ (g2.length = 3 ∨ g2.length = 4) ∧ allDigits g2 ∧
      sepOpt s2 ∧ (g3.length = 3 ∨ g3.length = 4) ∧ allDigits g3 ∧
      sepOpt s3 ∧ 3 ≤ g4.length ∧ g4.length ≤ 5 ∧ allDigits g4 := by
  simp only [ccTails, List.mem_flatMap, List.mem_map] at h
  obtain ⟨⟨s1, m1⟩, hq1, ⟨g2, m2⟩, hp2, ⟨s2, m3⟩, hq2, ⟨g3, m4⟩, hp3,
    ⟨s3, m5⟩, hq3, ⟨g4, m6⟩, hp4, heq⟩ := h
  dsimp only at hp2 hq2 hp3 hq3 hp4 heq
  obtain ⟨he1, he2⟩ := Prod.mk.injEq .. ▸ heq
  subst he1; subst he2
  obtain ⟨a1, a2⟩ := ccSepAlts_sound hq1
  obtain ⟨b1, b2, b3⟩ := ccAlts34_sound hp2
  obtain ⟨c1, c2⟩ := ccSepAlts_sound hq2
  obtain ⟨d1, d2, d3⟩ := ccAlts34_sound hp3
  obtain ⟨e1, e2⟩ := ccSepAlts_sound hq3
  obtain ⟨f1, f2, f3, f4⟩ := ccAlts35_sound hp4
  refine ⟨?_, s1, g2, s2, g3, s3, g4, rfl, a2, b2, b3, c2, d2, d3, e2, f2, f3, f4⟩
  rw [a1, b1, c1, d1, e1, f1]
  simp

theorem ccHere_sound {prev : Option Char} {l m : Text} (h : ccHere prev l = some m) :
    beforeOk prev ∧ ∃ post, l = m ++ post ∧ ccShape m ∧ afterOk post := by
  unfold ccHere at h
  by_cases hb : boundaryB prev = true
  · rw [if_pos hb] at h
    cases hg : ccGroup1 l with
    | none => rw [hg] at h; simp at h
    | some p1 =>
      obtain ⟨g1, r1⟩ := p1
      rw [hg] at h
      dsimp only at h
      rcases Option.map_eq_some'.mp h with ⟨⟨tail, rest⟩, hhead, heq⟩
      dsimp only at heq
      subst heq
      have hmem : (tail, rest) ∈ (ccTails r1).filter fun pr => endBoundary pr.2 := by
        cases hf : (ccTails r1).filter fun pr => endBoundary pr.2 with
        | nil => rw [hf] at hhead; simp at hhead
        | cons a as =>
          rw [hf] at hhead
          simp only [List.head?_cons, Option.some.injEq] at hhead
          subst hhead
          exact List.mem_cons_self _ _
      obtain ⟨hmem2, hend⟩ := List.mem_filter.mp hmem
      obtain ⟨ht1, s1, g2, s2, g3, s3, g4, htail, hs1, hg2, hg2d, hs2, hg3,
        hg3d, hs3, hg4a, hg4b, hg4d⟩ := ccTails_sound hmem2
      obtain ⟨k1, k2, k3, k4⟩ := ccGroup1_sound hg
      refine ⟨(boundaryB_iff prev).mp hb, rest, ?_, ?_, ?_⟩
      · rw [k1, ht1]
        simp
      · exact ⟨g1, s1, g2, s2, g3, s3, g4, by rw [htail]; simp, k2, k3, k4,
          hs1, hg2, hg2d, hs2, hg3, hg3d, hs3, hg4a, hg4b, hg4d⟩
      · exact (endBoundary_iff rest).mp hend
  · rw [if_neg hb] at h
    simp at h

theorem ccSearch_sound {prev : Option Char} {t m : Text}
    (h : ccSearchFrom prev t = some m) :
    ∃ pre post, t = pre ++ m ++ post ∧ ccShape m ∧
      beforeOk (lastOr prev pre) ∧ afterOk post := by
  induction t generalizing prev with
  | nil => simp [ccSearchFrom] at h
  | cons c rest ih =>
    simp only [ccSearchFrom] at h
    cases hh : ccHere prev (c :: rest) with
    | some m0 =>
      rw [hh] at h
      dsimp only at h
      obtain rfl : m0 = m := by injection h
      obtain ⟨hb, post, heq, hshape, ha⟩ := ccHere_sound hh
      exact ⟨[], post, by simpa using heq, hshape, hb, ha⟩
    | none =>
      rw [hh] at h
      dsimp only at h
      obtain ⟨pre, post, heq, hshape, hb, ha⟩ := ih h
      exact ⟨c :: pre, post, by simp [heq], hshape, hb, ha⟩

theorem stripSeps_append (a b : Text) :
    stripSeps (a ++ b) = stripSeps a ++ stripSeps b := by
  simp [stripSeps, List.filter_append]

theorem stripSeps_digits {g : Text} (h : allDigits g) : stripSeps g = g := by
  unfold stripSeps
  have h1 : ∀ c ∈ g, (!(c == '-')) = true := by
    intro c hc
    have hd := h c hc
    by_cases he : c = '-'
    · subst he; exact absurd hd (by decide)
    · simp [he]
  have h2 : ∀ c ∈ g, (!(c == ' ')) = true := by
    intro c hc
    have hd := h c hc
    by_cases he : c = ' '
    · subst he; exact absurd hd (by decide)
    · simp [he]
  rw [List.filter_eq_self.mpr h1, List.filter_eq_self.mpr h2]

theorem stripSeps_sep {s : Text} (h : sepOpt s) : stripSeps s = [] := by
  rcases h with rfl | rfl | rfl <;> decide

theorem ccShape_strip {mid : Text} (h : ccShape mid) :
    13 ≤ (stripSeps mid).length ∧ (stripSeps mid).length ≤ 17 := by
  obtain ⟨g1, s1, g2, s2, g3, s3, g4, rfl, k2, k3, _, hs1, hg2, hg2d, hs2,
    hg3, hg3d, hs3, hg4a, hg4b, hg4d⟩ := h
  rw [stripSeps_append, stripSeps_append, stripSeps_append, stripSeps_append,
    stripSeps_append, stripSeps_append]
  rw [stripSeps_digits k3, stripSeps_digits hg2d, stripSeps_digits hg3d,
    stripSeps_digits hg4d, stripSeps_sep hs1, stripSeps_sep hs2, stripSeps_sep hs3]
  simp only [List.append_nil, List.nil_append, List.length_append, k2]
  omega

/-- The weak network classes exactly as claim C1 words them: the stripped
digit string starts with 4, or 51 to 55, or 6, or 1, or 3. -/
def weakClassClaim : Text → Prop
  | [] => False
  | c :: rest =>
    c = '4' ∨ c = '6' ∨ c = '1' ∨ c = '3' ∨
      (c = '5' ∧ ∃ d rest2, rest = d :: rest2 ∧ 49 ≤ d.toNat ∧ d.toNat ≤ 53)

/-- A credit-card candidate as claim C1 words it: a word-bounded run of
digits and separators whose stripped form has 13 to 19 digits and falls in
the claimed network classes. -/
def ccClaimCandidate (t mid : Text) : Prop :=
  ∃ pre post, t = pre ++ mid ++ post ∧
    (∀ c ∈ mid, isDigitChar c = true ∨ c = '-' ∨ c = ' ') ∧
    13 ≤ (stripSeps mid).length ∧ (stripSeps mid).length ≤ 19 ∧
    weakClassClaim (stripSeps mid) ∧
    beforeOk (lastOr none pre) ∧ afterOk post

/-- A Luhn-valid 19-digit number in the class starting with 4. -/
def card19 : Text :=
  ['4','0','0','0','0','0','0','0','0','0','0','0','0','0','0','0','0','3','0']

/-- C1 counterexample: card19 is a 19-digit, word-bounded, Luhn-valid
candidate in the claimed weak class, yet the detector reports not-found,
because the regex groups only cover 13 to 17 digits and a 17-digit
sub-match would violate the trailing word boundary. -/
theorem claim1_counterexample :
    (∃ mid, ccClaimCandidate card19 mid ∧ luhn_checksum (stripSeps mid) = true) ∧
    ccDetect card19 = false := by
  constructor
  · refine ⟨card19, ⟨[], [], by simp, by decide, by decide, by decide, ?_,
      beforeOk_none, afterOk_nil⟩, by decide⟩
    have hss : stripSeps card19 = card19 := by decide
    rw [hss]
    exact Or.inl rfl
  · decide

/-- C1 amended: if the detector reports found then the text contains a
word-bounded syntactic candidate of the weak pattern whose stripped form
has 13 to 17 digits and passes the Luhn checksum; if the text contains no
word-bounded syntactic candidate at all, the detector reports not-found;
and whenever the regex search returns a (leftmost, greedy) match, found is
equivalent to that single match passing the Luhn checksum. -/
theorem claim1_amended (t : Text) :
    (ccDetect t = true →
      ∃ mid, ccCandidate t mid ∧ luhn_checksum (stripSeps mid) = true ∧
        13 ≤ (stripSeps mid).length ∧ (stripSeps mid).length ≤ 17) ∧
    ((∀ mid, ¬ ccCandidate t mid) → ccDetect t = false) ∧
    (∀ m, ccSearchFrom none t = some m →
      (ccDetect t = true ↔ luhn_checksum (stripSeps m) = true)) := by
  refine ⟨?_, ?_, ?_⟩
  · intro h
    unfold ccDetect at h
    cases hs : ccSearchFrom none t with
    | none => rw [hs] at h; simp at h
    | some m =>
      rw [hs] at h
      obtain ⟨pre, post, heq, hshape, hb, ha⟩ := ccSearch_sound hs
      obtain ⟨h13, h17⟩ := ccShape_strip hshape
      exact ⟨m, ⟨pre, post, heq, hshape, hb, ha⟩, h, h13, h17⟩
  · intro hno
    cases hd : ccDetect t with
    | false => rfl
    | true =>
      unfold ccDetect at hd
      cases hs : ccSearchFrom none t with
      | none => rw [hs] at hd; simp at hd
      | some m =>
        obtain ⟨pre, post, heq, hshape, hb, ha⟩ := ccSearch_sound hs
        exact absurd ⟨pre, post, heq, hshape, hb, ha⟩ (hno m)
  · intro m hm
    unfold ccDetect
    rw [hm]

/-- Witness for C1 applying the third part of the amended statement at the
concrete text 4111111111111111. -/
theorem claim1_witness :
    ccDetect card4111v = true ↔ luhn_checksum (stripSeps card4111v) = true :=
  (claim1_amended card4111v).2.2 card4111v (by decide)

/-- C9: only the leftmost match of the weak credit-card regex is
Luhn-validated; when that first match fails the checksum the detector
reports not-found for the whole text, regardless of any later candidate. -/
theorem claim9_leftmost_only (t m : Text) (h1 : ccSearchFrom none t = some m)
    (h2 : luhn_checksum (stripSeps m) = false) : ccDetect t = false := by
  unfold ccDetect
  rw [h1]
  exact h2

/-- The two-card text: the Luhn-invalid 4111111111111112 followed by the
Luhn-valid 4111111111111111. -/
def textTwoCards : Text :=
  ['4','1','1','1','1','1','1','1','1','1','1','1','1','1','1','2',' ',
   '4','1','1','1','1','1','1','1','1','1','1','1','1','1','1','1']

/-- Witness for C9: the first match of the two-card text fails the
checksum, so the detector reports not-found even though the Luhn-valid
4111111111111111 occurs later as a word-bounded candidate. -/
theorem claim9_witness :
    ccSearchFrom none textTwoCards = some card4111i ∧
    ccDetect textTwoCards = false ∧
    ccCandidate textTwoCards card4111v ∧
    luhn_checksum (stripSeps card4111v) = true := by
  refine ⟨by decide,
    claim9_leftmost_only textTwoCards card4111i (by decide) (by decide), ?_, by decide⟩
  refine ⟨card4111i ++ [' '], [], by decide, ?_, ?_, afterOk_nil⟩
  · refine ⟨['4','1','1','1'], [], ['1','1','1','1'], [], ['1','1','1','1'], [],
      ['1','1','1','1'], by decide, by decide, by decide,
      ⟨'4', ['1','1','1'], rfl, Or.inl rfl⟩, Or.inl rfl, by decide, by decide,
      Or.inl rfl, by decide, by decide, Or.inl rfl, by decide, by decide, by decide⟩
  · have hl : lastOr none (card4111i ++ [' ']) = some ' ' := by decide
    rw [hl]
    exact beforeOk_some (by decide)

def yStr : Text := ['Y']

def nStr : Text := ['N']

def naStr : Text := ['N','A']

def yesStr : Text := ['Y','e','s']

def noStr : Text := ['N','o']

/-- The outcome of parser.from_file (src/main.py line 50): a response
dictionary carrying an optional status code and an optional content text,
or an exception raised while communicating with the service. -/
inductive TikaResult where
  | ok (status : Option Nat) (content : Option Text)
  | exn
deriving DecidableEq

/-- Python truthiness of the optional content value. -/
def truthy : Option Text → Bool
  | none => false
  | some s => !s.isEmpty

/-- content_scan from src/main.py lines 45-62: status Y survives only for
code 200; code 204 gives N, any other code gives NA; afterwards a falsy
content value overrides the status with N (line 58), and an exception gives
NA with the initial empty content. -/
def content_scan : TikaResult → Text × Option Text
  | .exn => (naStr, some [])
  | .ok status content =>
    (if truthy content then
       (if status = some 200 then yStr else if status = some 204 then nStr else naStr)
     else nStr,
     content)

/-- C4 counterexample: a response with status 500 and absent content is
outside the success and no-content codes, so the claim requires NA, but
line 58 downgrades the status to N because the content is falsy. -/
theorem claim4_counterexample :
    (¬((some 500 : Option Nat) = some 200 ∨ (some 500 : Option Nat) = some 204)) ∧
    (content_scan (TikaResult.ok (some 500) none)).1 = nStr ∧
    (content_scan (TikaResult.ok (some 500) none)).1 ≠ naStr := by
  refine ⟨by decide, by decide, by decide⟩

/-- C4 amended: on a response, Y iff the status is 200 and the content is
truthy; N iff the status is 204 or the content is falsy; NA iff the status
is outside 200 and 204 while the content is truthy; and an exception always
gives NA (with exceptions never propagating, content_scan being a total
function of the service outcome). -/
theorem claim4_amended (s : Option Nat) (c : Option Text) :
    ((content_scan (TikaResult.ok s c)).1 = yStr ↔
      (s = some 200 ∧ truthy c = true)) ∧
    ((content_scan (TikaResult.ok s c)).1 = nStr ↔
      (s = some 204 ∨ truthy c = false)) ∧
    ((content_scan (TikaResult.ok s c)).1 = naStr ↔
      (s ≠ some 200 ∧ s ≠ some 204 ∧ truthy c = true)) ∧
    (content_scan TikaResult.exn).1 = naStr := by
  have d1 : yStr ≠ nStr := by decide
  have d2 : yStr ≠ naStr := by decide
  have d3 : nStr ≠ naStr := by decide
  have d4 : naStr ≠ nStr := by decide
  have d5 : nStr ≠ yStr := by decide
  have d6 : naStr ≠ yStr := by decide
  by_cases h200 : s = some 200
  · subst h200
    by_cases ht : truthy c = true
    · refine ⟨?_, ?_, ?_, rfl⟩ <;> simp [content_scan, ht, d1, d2]
    · rw [Bool.not_eq_true] at ht
      refine ⟨?_, ?_, ?_, rfl⟩ <;> simp [content_scan, ht, d5, d4, d3]
  · by_cases h204 : s = some 204
    · subst h204
      by_cases ht : truthy c = true
      · refine ⟨?_, ?_, ?_, rfl⟩ <;> simp [content_scan, ht, h200, d5, d4, d3]
      · rw [Bool.not_eq_true] at ht
        refine ⟨?_, ?_, ?_, rfl⟩ <;> simp [content_scan, ht, d5, d4, d3]
    · by_cases ht : truthy c = true
      · refine ⟨?_, ?_, ?_, rfl⟩ <;> simp [content_scan, ht, h200, h204, d6, d4]
      · rw [Bool.not_eq_true] at ht
        refine ⟨?_, ?_, ?_, rfl⟩ <;> simp [content_scan, ht, h200, h204, d5, d4, d3]

/-- Per-file findings entry of file_paths_dict (src/main.py line 66). -/
structure FileInfo where
  scanned : Text
  credit_card_found : Bool
  social_security_found : Bool
deriving DecidableEq

/-- A flagged-files report entry (src/main.py lines 96-99). -/
structure ReportEntry where
  credit_card_found : Text
  social_security_found : Text
deriving DecidableEq

def yesNo (b : Bool) : Text := if b then yesStr else noStr

/-- The body of the as_completed loop for one finished task, src/main.py
lines 73-99: the try/except around future.result() maps a task exception to
status NA with empty content; when the status is Y both detectors run over
the content, and a report entry is produced iff either detector fires. -/
def processJob (futRes : Except Unit (Text × Option Text)) :
    FileInfo × Option ReportEntry :=
  let st := match futRes with
    | .ok r => r
    | .error _ => (naStr, some [])
  if st.1 = yStr then
    let ssn := ssnDetect (st.2.getD [])
    let cc := ccDetect (st.2.getD [])
    if ssn || cc then
      (⟨st.1, cc, ssn⟩, some ⟨yesNo cc, yesNo ssn⟩)
    else (⟨st.1, cc, ssn⟩, none)
  else (⟨st.1, false, false⟩, none)

/-- The as_completed loop of src/main.py lines 72-99 when all submitted
futures complete within the budget: jobs lists each file path with its
future outcome, in completion order; the result collects the terminal
findings of every file and the flagged-files report. -/
def runScan : List (Text × Except Unit (Text × Option Text)) →
    List (Text × FileInfo) × List (Text × ReportEntry)
  | [] => ([], [])
  | (p, r) :: rest =>
    ((p, (processJob r).1) :: (runScan rest).1,
      match (processJob r).2 with
      | some e => (p, e) :: (runScan rest).2
      | none => (runScan rest).2)

/-- Association-list lookup, modelling Python dict access by key. -/
def lookupA {α : Type} (p : Text) : List (Text × α) → Option α
  | [] => none
  | (q, a) :: rest => if q = p then some a else lookupA p rest

theorem lookupA_not_mem {α : Type} {p : Text} {l : List (Text × α)}
    (h : p ∉ l.map Prod.fst) : lookupA p l = none := by
  induction l with
  | nil => rfl
  | cons qa rest ih =>
    obtain ⟨q, a⟩ := qa
    simp only [List.map_cons, List.mem_cons] at h
    push_neg at h
    simp only [lookupA]
    rw [if_neg (fun hq => h.1 hq.symm)]
    exact ih h.2

theorem runScan_report_keys (jobs : List (Text × Except Unit (Text × Option Text))) :
    ∀ p, p ∈ (runScan jobs).2.map Prod.fst → p ∈ jobs.map Prod.fst := by
  induction jobs with
  | nil => intro p h; simp [runScan] at h
  | cons qa rest ih =>
    obtain ⟨q, r⟩ := qa
    intro p hp
    simp only [runScan] at hp
    cases he : (processJob r).2 with
    | some e =>
      rw [he] at hp
      simp only [List.map_cons, List.mem_cons] at hp
      rcases hp with rfl | hp
      · simp
      · simp [ih p hp]
    | none =>
      rw [he] at hp
      simp only [List.map_cons, List.mem_cons]
      exact Or.inr (ih p hp)

theorem runScan_report_lookup (jobs : List (Text × Except Unit (Text × Option Text)))
    (h : (jobs.map Prod.fst).Nodup) (p : Text) :
    lookupA p (runScan jobs).2 = (lookupA p jobs).bind fun r => (processJob r).2 := by
  induction jobs with
  | nil => rfl
  | cons qa rest ih =>
    obtain ⟨q, r⟩ := qa
    simp only [List.map_cons, List.nodup_cons] at h
    obtain ⟨hq, hrest⟩ := h
    by_cases hpq : q = p
    · subst hpq
      cases he : (processJob r).2 with
      | some e => simp [runScan, he, lookupA]
      | none =>
        have hnone : lookupA q (runScan rest).2 = none :=
          lookupA_not_mem (fun hmem => hq (runScan_report_keys rest q hmem))
        simp [runScan, he, lookupA, hnone]
    · cases he : (processJob r).2 with
      | some e =>
        simp only [runScan, he, lookupA, if_neg hpq]
        exact ih hrest
      | none =>
        simp only [runScan, he, lookupA, if_neg hpq]
        exact ih hrest

theorem runScan_info (jobs : List (Text × Except Unit (Text × Option Text))) :
    (runScan jobs).1 = jobs.map fun pr => (pr.1, (processJob pr.2).1) := by
  induction jobs with
  | nil => rfl
  | cons qa rest ih =>
    obtain ⟨q, r⟩ := qa
    simp only [runScan, List.map_cons, ih]

theorem lookupA_map {α β : Type} (f : α → β) (l : List (Text × α)) (p : Text) :
    lookupA p (l.map fun pr => (pr.1, f pr.2)) = (lookupA p l).map f := by
  induction l with
  | nil => rfl
  | cons qa rest ih =>
    obtain ⟨q, a⟩ := qa
    by_cases hpq : q = p
    · subst hpq
      simp [lookupA]
    · simp [lookupA, hpq, ih]

theorem processJob_flag (r : Except Unit (Text × Option Text)) :
    ((processJob r).2.isSome = ((processJob r).1.social_security_found ||
      (processJob r).1.credit_card_found)) ∧
    (∀ e, (processJob r).2 = some e →
      (e.credit_card_found = yesStr ∨ e.credit_card_found = noStr) ∧
      (e.social_security_found = yesStr ∨ e.social_security_found = noStr)) := by
  cases r with
  | error u =>
    have hne : naStr = yStr ↔ False := by decide
    refine ⟨rfl, ?_⟩
    intro e he
    simp [processJob, hne] at he
  | ok st =>
    simp only [processJob]
    by_cases hy : st.1 = yStr
    · rw [if_pos hy]
      cases hssn : ssnDetect (st.2.getD []) <;>
        cases hcc : ccDetect (st.2.getD []) <;>
          simp [yesNo]
    · rw [if_neg hy]
      refine ⟨rfl, ?_⟩
      intro e he
      exact absurd he (by simp)

/-- C7: with distinct file paths, a path has an entry in the flagged-files
report iff its terminal findings have the SSN flag or the credit-card flag
set, and every report entry carries the strings Yes or No in each of its
two categories. -/
theorem claim7_report_invariant (jobs : List (Text × Except Unit (Text × Option Text)))
    (h : (jobs.map Prod.fst).Nodup) (p : Text) :
    ((lookupA p (runScan jobs).2).isSome = true ↔
      ∃ fi, lookupA p (runScan jobs).1 = some fi ∧
        (fi.social_security_found || fi.credit_card_found) = true) ∧
    (∀ e, lookupA p (runScan jobs).2 = some e →
      (e.credit_card_found = yesStr ∨ e.credit_card_found = noStr) ∧
      (e.social_security_found = yesStr ∨ e.social_security_found = noStr)) := by
  have hrep := runScan_report_lookup jobs h p
  have hinf : lookupA p (runScan jobs).1 =
      (lookupA p jobs).map fun r => (processJob r).1 := by
    rw [runScan_info]
    exact lookupA_map (fun r => (processJob r).1) jobs p
  constructor
  · rw [hrep, hinf]
    cases hl : lookupA p jobs with
    | none => simp
    | some r =>
      simp only [Option.some_bind, Option.map_some']
      rw [(processJob_flag r).1]
      constructor
      · intro hb
        exact ⟨(processJob r).1, rfl, hb⟩
      · rintro ⟨fi, hfi, hb⟩
        injection hfi with h2
        subst h2
        exact hb
  · intro e he
    rw [hrep] at he
    cases hl : lookupA p jobs with
    | none => rw [hl] at he; simp at he
    | some r =>
      rw [hl] at he
      simp only [Option.some_bind] at he
      exact (processJob_flag r).2 e he

/-- One completed job for the C7 witness: the file at path a yields an SSN
text. -/
def ssnJobs : List (Text × Except Unit (Text × Option Text)) :=
  [(['a'], Except.ok (yStr, some ['1','2','3','-','4','5','-','6','7','8','9']))]

/-- Witness for C7 at a concrete one-job run. -/
theorem claim7_witness :
    (((lookupA ['a'] (runScan ssnJobs).2).isSome = true ↔
      ∃ fi, lookupA ['a'] (runScan ssnJobs).1 = some fi ∧
        (fi.social_security_found || fi.credit_card_found) = true) ∧
    (∀ e, lookupA ['a'] (runScan ssnJobs).2 = some e →
      (e.credit_card_found = yesStr ∨ e.credit_card_found = noStr) ∧
      (e.social_security_found = yesStr ∨ e.social_security_found = noStr))) :=
  claim7_report_invariant ssnJobs (by decide) ['a']

theorem lookupA_perm {α : Type} {l1 l2 : List (Text × α)} (hp : l1.Perm l2)
    (h : (l1.map Prod.fst).Nodup) (p : Text) : lookupA p l1 = lookupA p l2 := by
  induction hp with
  | nil => rfl
  | cons x h1 ih =>
    obtain ⟨q, a⟩ := x
    simp only [List.map_cons, List.nodup_cons] at h
    by_cases hpq : q = p
    · subst hpq
      simp [lookupA]
    · simp [lookupA, hpq, ih h.2]
  | swap x y l =>
    obtain ⟨qx, ax⟩ := x
    obtain ⟨qy, ay⟩ := y
    simp only [List.map_cons, List.nodup_cons, List.mem_cons] at h
    by_cases h1 : qy = p <;> by_cases h2 : qx = p
    · exfalso
      subst h1
      exact h.1 (Or.inl h2.symm)
    · simp [lookupA, h1, h2]
    · simp [lookupA, h1, h2]
    · simp [lookupA, h1, h2]
  | trans hp1 hp2 ih1 ih2 =>
    have hmid := ((hp1.map Prod.fst).nodup_iff).mp h
    rw [ih1 h, ih2 hmid]

/-- C8: two runs over the same set of files with the same extraction
outcome per file produce the same flagged-files report as a mapping,
whatever the enumeration or completion order (any permutation of the job
list) in either run. -/
theorem claim8_determinism (l1 l2 : List (Text × Except Unit (Text × Option Text)))
    (hp : l1.Perm l2) (h : (l1.map Prod.fst).Nodup) (p : Text) :
    lookupA p (runScan l1).2 = lookupA p (runScan l2).2 := by
  have h2 : (l2.map Prod.fst).Nodup := ((hp.map Prod.fst).nodup_iff).mp h
  rw [runScan_report_lookup l1 h p, runScan_report_lookup l2 h2 p,
    lookupA_perm hp h p]

/-- Two concrete jobs, one flagged and one failing, for the C8 witness. -/
def jobA : Text × Except Unit (Text × Option Text) :=
  (['a'], Except.ok (yStr, some ['1','2','3','-','4','5','-','6','7','8','9']))

def jobB : Text × Except Unit (Text × Option Text) :=
  (['b'], Except.error ())

/-- Witness for C8 at the two completion orders of a concrete two-job run. -/
theorem claim8_witness :
    lookupA ['a'] (runScan [jobA, jobB]).2 = lookupA ['a'] (runScan [jobB, jobA]).2 :=
  claim8_determinism [jobA, jobB] [jobB, jobA] (List.Perm.swap jobB jobA [])
    (by decide) ['a']

/-- Control-flow model of the loop body with the detection step abstracted
as a fallible computation: the try/except of src/main.py lines 75-78 covers
only future.result(), and the detection step of lines 82-94 runs outside
it, so a detection error is not translated and propagates. -/
def processJobE (detect : Text → Except Unit (Bool × Bool))
    (futRes : Except Unit (Text × Option Text)) :
    Except Unit (FileInfo × Option ReportEntry) :=
  let st := match futRes with
    | .ok r => r
    | .error _ => (naStr, some [])
  if st.1 = yStr then
    match detect (st.2.getD []) with
    | .error e => .error e
    | .ok sc =>
      .ok (if sc.1 || sc.2 then
        (⟨st.1, sc.2, sc.1⟩, some ⟨yesNo sc.2, yesNo sc.1⟩)
      else (⟨st.1, sc.2, sc.1⟩, none))
  else .ok (⟨st.1, false, false⟩, none)

/-- The detection step as implemented: both detectors are total functions,
so the computation never fails. -/
def realDetect (t : Text) : Except Unit (Bool × Bool) :=
  .ok (ssnDetect t, ccDetect t)

/-- C6 counterexample: a detection step that raises on successfully
extracted content aborts the loop body with the error instead of being
downgraded to NA with both flags false, because no handler encloses the
detection step. -/
theorem claim6_counterexample :
    processJobE (fun _ => Except.error ()) (Except.ok (yStr, some ['a'])) =
      Except.error () ∧
    processJobE (fun _ => Except.error ()) (Except.ok (yStr, some ['a'])) ≠
      Except.ok (⟨naStr, false, false⟩, none) :=
  ⟨rfl, fun h => Except.noConfusion h⟩

/-- C6 amended: an exception raised while retrieving a task's extraction
result is caught at the loop body and downgraded to status NA with both
detection flags false and no report entry, whatever the detection step is;
and the implemented detection step is total, so the loop body as written
never fails. -/
theorem claim6_amended :
    (∀ (e : Unit) (detect : Text → Except Unit (Bool × Bool)),
      processJobE detect (Except.error e) =
        Except.ok (⟨naStr, false, false⟩, none)) ∧
    (∀ r, processJobE realDetect r = Except.ok (processJob r)) := by
  constructor
  · intro e detect
    rfl
  · intro r
    cases r with
    | error e => rfl
    | ok st =>
      obtain ⟨status, content⟩ := st
      by_cases hy : status = yStr
      · subst hy
        rfl
      · simp only [processJobE, processJob]
        rw [if_neg hy, if_neg hy]

/-- An event observed by the as_completed iteration (src/main.py line 72):
a future that completed within the budget, in completion order, or the
TimeoutError that concurrent.futures.as_completed raises once the
180-second budget elapses with futures still pending. -/
inductive LoopEvent where
  | completed (path : Text) (res : Except Unit (Text × Option Text))
  | timeout

/-- The as_completed loop over its event trace: each completed future is
processed as in runScan, while the TimeoutError is raised inside the for
statement, where no handler encloses it, so it aborts the loop and
discards every accumulated result. -/
def scanLoop : List LoopEvent →
    List (Text × FileInfo) × List (Text × ReportEntry) →
    Except Unit (List (Text × FileInfo) × List (Text × ReportEntry))
  | [], acc => .ok acc
  | .completed p r :: rest, acc =>
    scanLoop rest ((p, (processJob r).1) :: acc.1,
      match (processJob r).2 with
      | some e => (p, e) :: acc.2
      | none => acc.2)
  | .timeout :: _, _ => .error ()

/-- main_file_scan_interface (src/main.py lines 64-100) over a trace of
loop events: the flagged-files report is returned only when the loop
finishes; an uncaught TimeoutError propagates out of the function. -/
def main_file_scan_interface (events : List LoopEvent) :
    Except Unit (List (Text × ReportEntry)) :=
  (scanLoop events ([], [])).map Prod.snd

/-- C5: when the 180-second budget of as_completed elapses while a file is
still pending, the TimeoutError raised by as_completed is not caught
anywhere in main_file_scan_interface, so the scan aborts with the
exception and even the already-completed, flagged file is lost; had every
future completed, the same job would have produced a report. -/
theorem claim5_timeout_crash :
    main_file_scan_interface
      [LoopEvent.completed ['a']
        (Except.ok (yStr, some ['1','2','3','-','4','5','-','6','7','8','9'])),
       LoopEvent.timeout] = Except.error () ∧
    main_file_scan_interface
      [LoopEvent.completed ['a']
        (Except.ok (yStr, some ['1','2','3','-','4','5','-','6','7','8','9']))] =
      Except.ok [(['a'], ⟨noStr, yesStr⟩)] := by
  exact ⟨rfl, rfl⟩

/-- Witness for C3 at a concrete SSN text. -/
theorem claim3_witness :
    ssnDetect ['1','2','3','-','4','5','-','6','7','8','9'] = true ↔
      ssnStandalone ['1','2','3','-','4','5','-','6','7','8','9'] :=
  claim3_ssn_detector ['1','2','3','-','4','5','-','6','7','8','9']

/-- Witness for C4 at the concrete response with status 500 and no
content. -/
theorem claim4_witness :
    ((content_scan (TikaResult.ok (some 500) none)).1 = yStr ↔
      ((some 500 : Option Nat) = some 200 ∧ truthy none = true)) ∧
    ((content_scan (TikaResult.ok (some 500) none)).1 = nStr ↔
      ((some 500 : Option Nat) = some 204 ∨ truthy none = false)) ∧
    ((content_scan (TikaResult.ok (some 500) none)).1 = naStr ↔
      ((some 500 : Option Nat) ≠ some 200 ∧ (some 500 : Option Nat) ≠ some 204 ∧
        truthy none = true)) ∧
    (content_scan TikaResult.exn).1 = naStr :=
  claim4_amended (some 500) none

/-- Witness for C6: a failed extraction is downgraded at the loop body even
under a failing detection step. -/
theorem claim6_witness :
    processJobE (fun _ => Except.error ()) (Except.error ()) =
      Except.ok (⟨naStr, false, false⟩, none) :=
  claim6_amended.1 () (fun _ => Except.error ())

/-- Witness for C10 at the all-zero digit string of length four. -/
theorem claim10_witness :
    luhnTotal (digits_of (List.replicate 4 '0')) = 0 ∧
    luhn_checksum (List.replicate 4 '0') = true :=
  claim10_luhn_zero 4
